import Mathlib

/-!
Verification of the `lightning.data.cache.processor` data processing pipeline
(`src/lightning/data/cache/processor.py`).

Shallow embedding of:
* `DataProcessor._associated_items_to_workers` (item partitioning),
* `DataProcessor._cached_list_filepaths` (cached filesystem walk),
* `BaseWorker._collect_paths` / `run` (path collection and the main loop),
* `_download_data_target` (downloader subprocess body),
* `_remove_target` (remover subprocess body).

Python lists become `List`, dict-backed caches become write-event lists with a
last-write-wins lookup, queues become explicit message lists, the filesystem
becomes explicit state, and exceptions become `Except`.
-/

namespace Processor

/-- Python list slicing `l[start:stop]` with non-negative, clamped bounds. -/
def pySlice (l : List α) (start stop : Nat) : List α :=
  (l.take stop).drop start

/-- The slice of `user_items` that belongs to node `nodeRank` in
`DataProcessor._associated_items_to_workers`: `node_size = len(user_items) // num_nodes`,
`start_node = node_rank * node_size`, and `end_node` is `len(user_items)` on the
last node, else `(node_rank + 1) * node_size`. -/
def nodeSlice (numNodes nodeRank : Nat) (userItems : List α) : List α :=
  let nodeSize := userItems.length / numNodes
  let endNode := if nodeRank = numNodes - 1 then userItems.length
                 else (nodeRank + 1) * nodeSize
  pySlice userItems (nodeRank * nodeSize) endNode

/-- Embedding of `DataProcessor._associated_items_to_workers`.  The Python loop
`for node_rank in range(num_nodes)` skips every rank except the current one and
returns `(begins, workers_user_items)` inside that iteration; when
`current_node_rank` is not in `range(num_nodes)` the loop falls through and the
function implicitly returns `None`.  Each worker slice is
`user_items[begin:end]` — taken from `user_items`, not `node_user_items`,
exactly as in the source. -/
def associatedItemsToWorkers (numWorkers numNodes currentNodeRank : Nat)
    (userItems : List α) : Option (List Nat × List (List α)) :=
  if currentNodeRank < numNodes then
    let nodeUserItems := nodeSlice numNodes currentNodeRank userItems
    let workerSize := nodeUserItems.length / numWorkers
    let pairs := (List.range numWorkers).map (fun workerIdx =>
      let b := workerIdx * workerSize
      let e := if workerIdx = numWorkers - 1 then nodeUserItems.length
               else (workerIdx + 1) * workerSize
      (b, pySlice userItems b e))
    some (pairs.map Prod.fst, pairs.map Prod.snd)
  else
    none

/-- `DataProcessor.run` line `begins, workers_user_items = self._associated_items_to_workers(...)`:
unpacking `None` raises a `TypeError`, modelled as `Except.error`. -/
def runPartition (numWorkers numNodes currentNodeRank : Nat) (userItems : List α) :
    Except String (List Nat × List (List α)) :=
  match associatedItemsToWorkers numWorkers numNodes currentNodeRank userItems with
  | none => Except.error "TypeError: cannot unpack non-iterable NoneType object"
  | some r => Except.ok r

/-- `self.prepare_item(self.items[r]) if self.prepare_item else self.items[r]`. -/
def itemValue (prepareItem : Option (α → α)) (item : α) : α :=
  match prepareItem with
  | some f => f item
  | none => item

/-- State of one `BaseWorker` during `run`'s main loop.  The chunk cache object
(`self.cache[...] = ...`) is recorded as the list of write events
`(slot, value)`; `workerMsgs` are the `(self.index, self._counter)` messages put
on the coordinator's worker queue, `removeMsgs` the messages put on
`self._remove_queue` (`none` is the shutdown sentinel), and `cacheDone` records
whether `self.cache.done()` has been called. -/
structure LoopState (α : Type) where
  writes : List (Nat × α)
  counter : Nat
  workerMsgs : List (Nat × Nat)
  removeMsgs : List (Option (List String))
  cacheDone : Bool
deriving DecidableEq, Repr

/-- Outcome of `BaseWorker.run`'s main loop on a finite list of ready-queue
messages: `returned` when the loop executed `return` (after the final `None`
sentinel), `blocked` when the message list ran out and
`self._download_is_ready_queue.get()` would block. -/
inductive LoopResult (α : Type) where
  | blocked (s : LoopState α)
  | returned (s : LoopState α)
deriving DecidableEq, Repr

/-- The initial state of the loop: `BaseWorker.__init__` starts with empty
queues, `self._counter = 0`, and no cache writes. -/
def initState (α : Type) : LoopState α := ⟨[], 0, [], [], false⟩

/-- The body of `BaseWorker.run`'s loop for a ready index `r`:
`self.cache[r + self.start_index] = prepare_item(items[r])` (or the raw item),
`self._counter += 1`, an optional `(self.index, self._counter)` progress
message, and, when `remove` is set, `self._remove_queue.put(self._paths[r])`.
`itemAt` and `pathsAt` model the Python list lookups `self.items[r]` and
`self._paths[r]` (total on the indices the downloaders report). -/
def stepSome (workerIndex startIndex : Nat) (prepareItem : Option (α → α))
    (itemAt : Nat → α) (pathsAt : Nat → List String) (hasWorkerQueue remove : Bool)
    (s : LoopState α) (r : Nat) : LoopState α :=
  { writes := s.writes ++ [(r + startIndex, itemValue prepareItem (itemAt r))]
    counter := s.counter + 1
    workerMsgs := s.workerMsgs ++
      (if hasWorkerQueue then [(workerIndex, s.counter + 1)] else [])
    removeMsgs := s.removeMsgs ++ (if remove then [some (pathsAt r)] else [])
    cacheDone := s.cacheDone }

/-- Embedding of `BaseWorker.run`'s main loop over the sequence `msgs` of
messages received on `self._download_is_ready_queue`; `isNone` is the running
count of `None` sentinels.  On the `numDownloaders`-th sentinel the loop puts
`None` on the remove queue, calls `self.cache.done()` and returns. -/
def runLoop (workerIndex startIndex : Nat) (prepareItem : Option (α → α))
    (itemAt : Nat → α) (pathsAt : Nat → List String) (hasWorkerQueue remove : Bool)
    (numDownloaders : Nat) :
    List (Option Nat) → Nat → LoopState α → LoopResult α
  | [], _, s => LoopResult.blocked s
  | none :: rest, isNone, s =>
      if isNone + 1 = numDownloaders then
        LoopResult.returned
          { s with removeMsgs := s.removeMsgs ++ [none], cacheDone := true }
      else
        runLoop workerIndex startIndex prepareItem itemAt pathsAt hasWorkerQueue
          remove numDownloaders rest (isNone + 1) s
  | some r :: rest, isNone, s =>
      runLoop workerIndex startIndex prepareItem itemAt pathsAt hasWorkerQueue
        remove numDownloaders rest isNone
        (stepSome workerIndex startIndex prepareItem itemAt pathsAt
          hasWorkerQueue remove s r)

/-- Last-write-wins lookup into the cache write-event list: the value of slot
`k` after all writes, i.e. the dict/cache contents at key `k`. -/
def lookupLast (writes : List (Nat × α)) (k : Nat) : Option α :=
  match writes with
  | [] => none
  | w :: rest =>
      match lookupLast rest k with
      | some v => some v
      | none => if w.1 = k then some w.2 else none

/-! String helpers modelling the Python primitives used by the pipeline.
They recurse on character lists (with fuel where the step is not structural)
so that every definition evaluates inside the kernel. -/

/-- One pass of Python `str.replace(old, new)` over the remaining characters:
replace each leftmost non-overlapping occurrence of `pat`.  `fuel` bounds the
recursion and is instantiated with the length of the scanned list. -/
def replaceFuel (pat repl : List Char) : Nat → List Char → List Char
  | 0, s => s
  | _ + 1, [] => []
  | fuel + 1, c :: rest =>
      if pat.isPrefixOf (c :: rest) then
        repl ++ replaceFuel pat repl fuel ((c :: rest).drop pat.length)
      else
        c :: replaceFuel pat repl fuel rest

/-- Python `s.replace(old, new)`: replaces every non-overlapping occurrence of
`old`, scanning left to right.  (The pipeline never calls it with an empty
`old`; that Python corner case is mapped to the identity.) -/
def pyReplace (s old new : String) : String :=
  match old.data with
  | [] => s
  | _ :: _ => String.mk (replaceFuel old.data new.data s.data.length s.data)

/-- Python `s.startswith(pre)`. -/
def pyStartsWith (s pre : String) : Bool :=
  pre.data.isPrefixOf s.data

/-- Characters admitted in a URL scheme by `urllib.parse`
(letters, digits, `+`, `-`, `.`). -/
def schemeChar (c : Char) : Bool :=
  c.isAlphanum || c = '+' || c = '-' || c = '.'

/-- Split a character list at its first `:`, returning the text before and
after it (Python `url.find(':')`). -/
def splitColon : List Char → Option (List Char × List Char)
  | [] => none
  | c :: rest =>
      if c = ':' then some ([], rest)
      else
        match splitColon rest with
        | none => none
        | some (pre, post) => some (c :: pre, post)

/-- The `scheme` field of `urllib.parse.urlparse(url)`: the lowercased text
before the first `:` when that text is nonempty, starts with an ASCII letter
and consists of scheme characters; otherwise the empty string. -/
def urlScheme (s : String) : String :=
  match splitColon s.data with
  | none => ""
  | some (pre, _) =>
      match pre with
      | [] => ""
      | c0 :: _ =>
          if c0.isAlpha && pre.all schemeChar then
            String.mk (pre.map Char.toLower)
          else ""

/-- The static arguments of `_download_data_target`: the dataset root, the
remote root it is mirrored from, and the worker's shared download cache
directory. -/
structure DlEnv where
  root : String
  remoteRoot : String
  cacheDir : String
deriving DecidableEq, Repr

/-- `path.replace(root, cache_dir)`: the local cache location of `path`. -/
def localPath (env : DlEnv) (path : String) : String :=
  pyReplace path env.root env.cacheDir

/-- `path.replace(root, remote_root)`: the remote counterpart of `path`. -/
def remotePath (env : DlEnv) (path : String) : String :=
  pyReplace path env.root env.remoteRoot

/-- The download loop of `_download_data_target` over the paths of one work
unit: for each path in order, parse the remote counterpart and raise
`ValueError` unless its scheme is `s3`, otherwise download it (recorded in the
returned list). -/
def downloadPaths (env : DlEnv) : List String → Except String (List String)
  | [] => Except.ok []
  | path :: rest =>
      let rp := remotePath env path
      if urlScheme rp ≠ "s3" then
        Except.error ("Expected obj.scheme to be s3, instead, got " ++ urlScheme rp
          ++ " for remote=" ++ rp)
      else
        match downloadPaths env rest with
        | Except.error e => Except.error e
        | Except.ok ds => Except.ok (rp :: ds)

/-- Processing of one `(index, paths)` work unit by `_download_data_target`:
when every path already exists at its cache location (`fsExists` models
`os.path.exists`), the index is reported on the ready queue with no download;
otherwise every path is downloaded (non-`s3` schemes raise) and then the index
is reported.  The result is `(downloads issued, ready-queue outputs)`. -/
def processUnit (env : DlEnv) (fsExists : String → Bool) (index : Nat)
    (paths : List String) : Except String (List String × List Nat) :=
  if paths.all (fun p => fsExists (localPath env p)) then
    Except.ok ([], [index])
  else
    match downloadPaths env paths with
    | Except.error e => Except.error e
    | Except.ok ds => Except.ok (ds, [index])

/-- Outcome of a `_download_data_target` process on a finite list of input
queue messages. -/
inductive DlResult where
  | blocked
  | failed (e : String)
  | finished (downloads : List String) (outputs : List (Option Nat))
deriving DecidableEq, Repr

/-- Embedding of the whole `_download_data_target` loop: work units are
processed in order until the `None` sentinel, which is forwarded to the ready
queue before the process exits; an unhandled `ValueError` aborts the process;
an exhausted queue without a sentinel blocks. -/
def downloaderRun (env : DlEnv) (fsExists : String → Bool) :
    List (Option (Nat × List String)) → DlResult
  | [] => DlResult.blocked
  | none :: _ => DlResult.finished [] [none]
  | some (i, paths) :: rest =>
      match processUnit env fsExists i paths with
      | Except.error e => DlResult.failed e
      | Except.ok (ds, outs) =>
          match downloaderRun env fsExists rest with
          | DlResult.blocked => DlResult.blocked
          | DlResult.failed e => DlResult.failed e
          | DlResult.finished ds2 outs2 =>
              DlResult.finished (ds ++ ds2) (outs.map some ++ outs2)

/-- The contents of downloader `d`'s input queue after
`BaseWorker._start_downloaders`: the work units `(index, paths)` with
`index % num_downloaders == d`, in order, followed by exactly one `None`
sentinel. -/
def toDownloadQueue (numDownloaders : Nat) (pathsList : List (List String))
    (d : Nat) : List (Option (Nat × List String)) :=
  (pathsList.enum.filter (fun ip => ip.1 % numDownloaders = d)).map some ++ [none]

/-- The filesystem state `DataProcessor._cached_list_filepaths` interacts with
for one root: the content of the cached `/cache/<sha256(root)>/filepaths.txt`
(`none` when the file does not exist), the filepaths an `os.walk(root)` yields,
and a counter of walks performed. -/
structure ListFS where
  cachedFile : Option String
  walkResult : List String
  walkCount : Nat
deriving DecidableEq, Repr

/-- The file content written by `_cached_list_filepaths`: one
`f.write(f"{filepath}\n")` per filepath. -/
def serializeLines : List String → String
  | [] => ""
  | p :: rest => p ++ "\n" ++ serializeLines rest

/-- `f.readlines()` followed by `line.replace("\n", "")` on each line: split
the content after every newline and return the lines without terminators (a
nonempty trailing fragment without a newline is also a line). -/
def splitLinesAux : List Char → List Char → List (List Char)
  | acc, [] => if acc = [] then [] else [acc.reverse]
  | acc, c :: rest =>
      if c = '\n' then acc.reverse :: splitLinesAux [] rest
      else splitLinesAux (c :: acc) rest

/-- The list of lines `_cached_list_filepaths` reads back from the cached
file. -/
def readLines (content : String) : List String :=
  (splitLinesAux [] content.data).map String.mk

/-- Embedding of `DataProcessor._cached_list_filepaths` for one root: when the
cached `filepaths.txt` exists, read it back line by line without walking;
otherwise walk the filesystem (counted in `walkCount`), write the file, and
return the walked filepaths. -/
def cachedListFilepaths (fs : ListFS) : List String × ListFS :=
  match fs.cachedFile with
  | some content => (readLines content, fs)
  | none =>
      (fs.walkResult,
       { fs with
          cachedFile := some (serializeLines fs.walkResult)
          walkCount := fs.walkCount + 1 })

/-- The number of `None` sentinels in a queue trace. -/
def countNone : List (Option β) → Nat
  | [] => 0
  | none :: rest => countNone rest + 1
  | some _ :: rest => countNone rest

/-- A leaf of the flattened pytree of one user item (`tree_flatten` in
`_collect_paths`): either a string or some non-string scalar, abstracted by a
numeric tag. -/
inductive Leaf where
  | str (s : String)
  | other (tag : Nat)
deriving DecidableEq, Repr

/-- Whether a flattened-item element is picked up by `_collect_paths`:
`isinstance(element, str) and element.startswith(self.root)`. -/
def isPathElem (root : String) (l : Leaf) : Bool :=
  match l with
  | .str s => pyStartsWith s root
  | .other _ => false

/-- The entry `_collect_paths` keeps for an element of the flattened item:
the string itself when it is a path under `root`, nothing otherwise. -/
def pathOf (root : String) (l : Leaf) : Option String :=
  match l with
  | .str s => if pyStartsWith s root then some s else none
  | .other _ => none

/-- `BaseWorker._collect_paths` body for one item: collect the elements that
are paths under `root` (`indexed_paths`), raise `ValueError` when there are
none, otherwise rewrite each collected element to its cache location
(`path.replace(self.root, self.cache_dir)`) and return the rewritten flattened
item together with the collected source paths. -/
def collectItem (root cacheDir : String) (item : List Leaf) :
    Except String (List Leaf × List String) :=
  if item.filterMap (pathOf root) = [] then
    Except.error "The provided item didn't contain any filepaths."
  else
    Except.ok
      (item.map (fun l =>
        match l with
        | .str s =>
            if pyStartsWith s root then Leaf.str (pyReplace s root cacheDir) else l
        | .other t => Leaf.other t),
       item.filterMap (pathOf root))

/-- `BaseWorker._collect_paths` over `self.items`: the first failing item
aborts the whole run; on success `self.items` is replaced by the rewritten
items and `self._paths` holds one path list per item. -/
def collectPaths (root cacheDir : String) :
    List (List Leaf) → Except String (List (List Leaf) × List (List String))
  | [] => Except.ok ([], [])
  | item :: rest =>
      match collectItem root cacheDir item with
      | Except.error e => Except.error e
      | Except.ok itPs =>
          match collectPaths root cacheDir rest with
          | Except.error e => Except.error e
          | Except.ok r => Except.ok (itPs.1 :: r.1, itPs.2 :: r.2)

/-- `BaseWorker.run`: `_collect_paths` runs before the downloaders are started
and before the main loop writes anything, so a `ValueError` raised there aborts
the run with no cache write at all; on success the main loop runs over the
rewritten items and the collected path lists. -/
def workerRun (root cacheDir : String) (itemsLeaves : List (List Leaf))
    (wi si : Nat) (p : Option (List Leaf → List Leaf)) (hwq rm : Bool) (N : Nat)
    (msgs : List (Option Nat)) : Except String (LoopResult (List Leaf)) :=
  match collectPaths root cacheDir itemsLeaves with
  | Except.error e => Except.error e
  | Except.ok r =>
      Except.ok (runLoop wi si p (fun i => r.1.getD i []) (fun i => r.2.getD i [])
        hwq rm N msgs 0 (initState (List Leaf)))

/-- One iteration body of `_remove_target` for a batch `paths` taken from the
remove queue: delete the cached counterpart (`path.replace(root, cache_dir)`)
of each path that exists.  The filesystem is the list of existing files; the
result is the filesystem afterwards together with the deletions performed, in
order. -/
def removeBatch (root cacheDir : String) :
    List String → List String → List String × List String
  | fs, [] => (fs, [])
  | fs, p :: rest =>
      let cached := pyReplace p root cacheDir
      if cached ∈ fs then
        let r := removeBatch root cacheDir (fs.erase cached) rest
        (r.1, cached :: r.2)
      else
        removeBatch root cacheDir fs rest

/-- The `_remove_target` loop: process remove-queue messages until the `None`
sentinel, then return.  `none` as a result models a remover blocked on an
exhausted queue; otherwise the final filesystem and all deletions are
returned. -/
def removerRun (root cacheDir : String) :
    List String → List (Option (List String)) → Option (List String × List String)
  | _, [] => none
  | fs, none :: _ => some (fs, [])
  | fs, some paths :: rest =>
      let b := removeBatch root cacheDir fs paths
      match removerRun root cacheDir b.1 rest with
      | none => none
      | some r => some (r.1, b.2 ++ r.2)

end Processor

open Processor

namespace Processor

/-! Helper lemmas about `runLoop`. -/

theorem runLoop_append_map_some (wi si : Nat) (p : Option (α → α)) (itemAt : Nat → α)
    (pathsAt : Nat → List String) (hwq rm : Bool) (N : Nat) (order : List Nat)
    (tail : List (Option Nat)) (isNone : Nat) (s : LoopState α) :
    runLoop wi si p itemAt pathsAt hwq rm N (order.map some ++ tail) isNone s
      = runLoop wi si p itemAt pathsAt hwq rm N tail isNone
          (order.foldl (stepSome wi si p itemAt pathsAt hwq rm) s) := by
  induction order generalizing s with
  | nil => simp
  | cons r rest ih =>
      simp only [List.map_cons, List.cons_append, runLoop, List.foldl_cons]
      exact ih _

theorem runLoop_replicate_none (wi si : Nat) (p : Option (α → α)) (itemAt : Nat → α)
    (pathsAt : Nat → List String) (hwq rm : Bool) (N : Nat) :
    ∀ (k isNone : Nat) (s : LoopState α), isNone < N → N ≤ isNone + k →
    runLoop wi si p itemAt pathsAt hwq rm N (List.replicate k none) isNone s
      = LoopResult.returned
          { s with removeMsgs := s.removeMsgs ++ [none], cacheDone := true } := by
  intro k
  induction k with
  | zero => intro isNone s h1 h2; omega
  | succ k ih =>
      intro isNone s h1 h2
      simp only [List.replicate_succ, runLoop]
      by_cases h : isNone + 1 = N
      · simp [h]
      · rw [if_neg h]
        exact ih (isNone + 1) s (by omega) (by omega)

theorem foldl_stepSome_writes (wi si : Nat) (p : Option (α → α)) (itemAt : Nat → α)
    (pathsAt : Nat → List String) (hwq rm : Bool) (order : List Nat)
    (s : LoopState α) :
    (order.foldl (stepSome wi si p itemAt pathsAt hwq rm) s).writes
      = s.writes ++ order.map (fun r => (r + si, itemValue p (itemAt r))) := by
  induction order generalizing s with
  | nil => simp
  | cons r rest ih =>
      simp only [List.foldl_cons, List.map_cons, ih, stepSome]
      simp

theorem foldl_stepSome_removeMsgs (wi si : Nat) (p : Option (α → α)) (itemAt : Nat → α)
    (pathsAt : Nat → List String) (hwq : Bool) (order : List Nat) (s : LoopState α) :
    (order.foldl (stepSome wi si p itemAt pathsAt hwq true) s).removeMsgs
      = s.removeMsgs ++ order.map (fun r => some (pathsAt r)) := by
  induction order generalizing s with
  | nil => simp
  | cons r rest ih =>
      simp only [List.foldl_cons, List.map_cons, ih, stepSome]
      simp

theorem foldl_stepSome_cacheDone (wi si : Nat) (p : Option (α → α)) (itemAt : Nat → α)
    (pathsAt : Nat → List String) (hwq rm : Bool) (order : List Nat) (s : LoopState α) :
    (order.foldl (stepSome wi si p itemAt pathsAt hwq rm) s).cacheDone = s.cacheDone := by
  induction order generalizing s with
  | nil => rfl
  | cons r rest ih => simp only [List.foldl_cons, ih, stepSome]

/-- The cache contents produced by a list of indexed writes whose value is a
function of the slot: slot `k` holds `v (k - si)` exactly when some reported
index `r` with `r + si = k` occurs. -/
theorem lookupLast_map_slots (si : Nat) (v : Nat → α) (order : List Nat) (k : Nat) :
    lookupLast (order.map (fun r => (r + si, v r))) k
      = if si ≤ k ∧ (k - si) ∈ order then some (v (k - si)) else none := by
  induction order with
  | nil => simp [lookupLast]
  | cons r rest ih =>
      simp only [List.map_cons, lookupLast, ih, List.mem_cons]
      by_cases h1 : si ≤ k ∧ (k - si) ∈ rest
      · have hcons : si ≤ k ∧ (k - si = r ∨ k - si ∈ rest) := ⟨h1.1, Or.inr h1.2⟩
        simp [h1, hcons]
      · by_cases h2 : r + si = k
        · have hle : si ≤ k := by omega
          have hr : k - si = r := by omega
          by_cases h3 : r ∈ rest <;> simp [h1, h2, hle, hr, h3]
        · have hcons : ¬(si ≤ k ∧ (k - si = r ∨ k - si ∈ rest)) := by
            intro ⟨hle, hor⟩
            rcases hor with h | h
            · exact h2 (by omega)
            · exact h1 ⟨hle, h⟩
          simp [h1, h2, hcons]

end Processor

/-- C3: for every completed index `r` reported on the ready queue,
`BaseWorker.run` writes exactly `prepare_item(items[r])` (or `items[r]` when
`prepare_item` is `None`) into cache slot `start_index + r`, and since distinct
indices occupy distinct slots the final cache contents are the same for every
arrival order of the indices. -/
theorem C3_run_writes_slots {α : Type} (wi si : Nat) (p : Option (α → α))
    (itemAt : Nat → α) (pathsAt : Nat → List String) (hwq rm : Bool) (N : Nat)
    (order order' : List Nat) (r : Nat)
    (hN : 1 ≤ N) (hperm : List.Perm order order') (hr : r ∈ order) :
    ∃ s s' : LoopState α,
      runLoop wi si p itemAt pathsAt hwq rm N
          (order.map some ++ List.replicate N none) 0 (initState α)
        = LoopResult.returned s
      ∧ runLoop wi si p itemAt pathsAt hwq rm N
          (order'.map some ++ List.replicate N none) 0 (initState α)
        = LoopResult.returned s'
      ∧ lookupLast s.writes (r + si) = some (itemValue p (itemAt r))
      ∧ lookupLast s.writes = lookupLast s'.writes := by
  have hrun : ∀ o : List Nat,
      runLoop wi si p itemAt pathsAt hwq rm N
          (o.map some ++ List.replicate N none) 0 (initState α)
        = LoopResult.returned
            { o.foldl (stepSome wi si p itemAt pathsAt hwq rm) (initState α) with
              removeMsgs := (o.foldl (stepSome wi si p itemAt pathsAt hwq rm)
                (initState α)).removeMsgs ++ [none],
              cacheDone := true } := by
    intro o
    rw [runLoop_append_map_some]
    exact runLoop_replicate_none wi si p itemAt pathsAt hwq rm N N 0
      (o.foldl (stepSome wi si p itemAt pathsAt hwq rm) (initState α))
      (by omega) (by omega)
  refine ⟨_, _, hrun order, hrun order', ?_, ?_⟩
  · simp only [foldl_stepSome_writes, initState, List.nil_append, lookupLast_map_slots]
    have h2 : r + si - si = r := by omega
    have hcond : si ≤ r + si ∧ r + si - si ∈ order :=
      ⟨Nat.le_add_left si r, by rw [h2]; exact hr⟩
    rw [if_pos hcond, h2]
  · funext k
    simp only [foldl_stepSome_writes, initState, List.nil_append]
    rw [lookupLast_map_slots, lookupLast_map_slots]
    by_cases h : si ≤ k ∧ (k - si) ∈ order
    · rw [if_pos h, if_pos ⟨h.1, (hperm.mem_iff).mp h.2⟩]
    · rw [if_neg h, if_neg]
      intro ⟨hle, hmem⟩
      exact h ⟨hle, (hperm.mem_iff).mpr hmem⟩

/-- C3 witness: a concrete run with `start_index = 10`, items
`itemAt = fun r => r * r`, ready order `[2, 0, 1]` versus `[0, 1, 2]`, one
downloader. -/
theorem C3_run_writes_slots_witness :
    ∃ s s' : LoopState Nat,
      runLoop 0 10 none (fun r => r * r) (fun _ => []) false false 1
          ([2, 0, 1].map some ++ List.replicate 1 none) 0 (initState Nat)
        = LoopResult.returned s
      ∧ runLoop 0 10 none (fun r => r * r) (fun _ => []) false false 1
          ([0, 1, 2].map some ++ List.replicate 1 none) 0 (initState Nat)
        = LoopResult.returned s'
      ∧ lookupLast s.writes (1 + 10) = some (itemValue none ((fun r => r * r) 1))
      ∧ lookupLast s.writes = lookupLast s'.writes :=
  C3_run_writes_slots 0 10 none (fun r => r * r) (fun _ => []) false false 1
    [2, 0, 1] [0, 1, 2] 1 (by decide) (by decide) (by decide)

/-- C1: the claim asserts that for every `NODE_RANK < NUM_NODES` the union of the
per-worker partitions equals the node's contiguous slice of the item list.  The
code violates this: with items `[0,1,2,3,4,5]`, `NUM_NODES = 2`, `NODE_RANK = 1`
and `num_workers = 1`, it returns the partitions `[[0, 1, 2]]` (it slices
`user_items[begin:end]` with indices relative to the node slice), while node 1's
slice is `[3, 4, 5]`. -/
theorem C1_node_cover_fails :
    (associatedItemsToWorkers 1 2 1 ([0, 1, 2, 3, 4, 5] : List Nat)).map
        (fun r => (r.2.map id).flatten)
      = some [0, 1, 2]
    ∧ nodeSlice 2 1 ([0, 1, 2, 3, 4, 5] : List Nat) = [3, 4, 5] := by
  constructor <;> rfl

/-- C2 counterexample: the claim asserts interleaved striding, i.e.
`_associated_items_to_workers` with `num_workers = 2` on `[0, 1, 2, 3, 4]`
(`NUM_NODES = 1`, `NODE_RANK = 0`) returns `[[0, 2, 4], [1, 3]]`.  The code
returns contiguous block partitions instead. -/
theorem C2_striding_fails :
    (associatedItemsToWorkers 2 1 0 ([0, 1, 2, 3, 4] : List Nat)).map Prod.snd
      ≠ some [[0, 2, 4], [1, 3]] := by
  decide

/-- C2 (amended): with `num_workers = 2`, items `[0, 1, 2, 3, 4]`,
`NUM_NODES = 1`, `NODE_RANK = 0`, the function returns the contiguous block
partitions `[[0, 1], [2, 3, 4]]` with begins `[0, 2]`: worker `w` receives the
slice `[w * (n / W), (w + 1) * (n / W))` and the last worker also takes the
remainder. -/
theorem C2_contiguous_blocks :
    associatedItemsToWorkers 2 1 0 ([0, 1, 2, 3, 4] : List Nat)
      = some ([0, 2], [[0, 1], [2, 3, 4]]) := by
  decide

/-- C10: `_associated_items_to_workers` produces `None` exactly when the
`NODE_RANK` value is at least `NUM_NODES` (its loop returns only in the
iteration `node_rank == current_node_rank`), and `DataProcessor.run` then fails
when unpacking the result; a `(begins, partitions)` pair is produced only under
the precondition `node_rank < num_nodes`. -/
theorem C10_none_iff_rank_out_of_range (numWorkers numNodes nodeRank : Nat)
    (items : List Nat) :
    (associatedItemsToWorkers numWorkers numNodes nodeRank items = none
        ↔ numNodes ≤ nodeRank)
    ∧ ((∃ e, runPartition numWorkers numNodes nodeRank items = Except.error e)
        ↔ numNodes ≤ nodeRank) := by
  constructor
  · constructor
    · intro h
      by_contra hlt
      push_neg at hlt
      simp only [associatedItemsToWorkers, if_pos hlt] at h
      exact Option.noConfusion h
    · intro h
      simp only [associatedItemsToWorkers, if_neg (Nat.not_lt.mpr h)]
  · constructor
    · intro ⟨e, he⟩
      by_contra hlt
      push_neg at hlt
      simp only [runPartition, associatedItemsToWorkers, if_pos hlt] at he
      exact Except.noConfusion he
    · intro h
      refine ⟨"TypeError: cannot unpack non-iterable NoneType object", ?_⟩
      simp only [runPartition, associatedItemsToWorkers, if_neg (Nat.not_lt.mpr h)]

namespace Processor

/-- The download loop raises `ValueError` exactly when some path's remote
counterpart has a scheme other than `s3`. -/
theorem downloadPaths_error_iff (env : DlEnv) (paths : List String) :
    (∃ e, downloadPaths env paths = Except.error e)
      ↔ ∃ p ∈ paths, urlScheme (remotePath env p) ≠ "s3" := by
  induction paths with
  | nil => simp [downloadPaths]
  | cons q rest ih =>
      simp only [downloadPaths, List.mem_cons]
      by_cases h : urlScheme (remotePath env q) ≠ "s3"
      · rw [if_pos h]
        constructor
        · intro _
          exact ⟨q, Or.inl rfl, h⟩
        · intro _
          exact ⟨_, rfl⟩
      · rw [if_neg h]
        push_neg at h
        cases hd : downloadPaths env rest with
        | error e2 =>
            constructor
            · intro _
              rcases ih.mp ⟨e2, hd⟩ with ⟨p, hp, hps⟩
              exact ⟨p, Or.inr hp, hps⟩
            · intro _
              exact ⟨e2, rfl⟩
        | ok ds =>
            constructor
            · intro ⟨e, he⟩
              exact Except.noConfusion he
            · intro ⟨p, hp, hps⟩
              rcases hp with rfl | hp
              · exact absurd h hps
              · rcases ih.mpr ⟨p, hp, hps⟩ with ⟨e, he⟩
                rw [hd] at he
                exact Except.noConfusion he

end Processor

/-- C5: for a work unit whose files are not all already cached,
`_download_data_target` raises `ValueError` (and hence never puts the index on
the ready queue: an `Except.error` outcome carries no ready-queue output) if
and only if some path's remote counterpart parses to a URL scheme other than
`s3`; when every remote path has the `s3` scheme, no such error is raised. -/
theorem C5_non_s3_scheme_fatal (env : DlEnv) (ex : String → Bool) (i : Nat)
    (paths : List String)
    (hne : (paths.all fun p => ex (localPath env p)) = false) :
    (∃ e, processUnit env ex i paths = Except.error e)
      ↔ ∃ p ∈ paths, urlScheme (remotePath env p) ≠ "s3" := by
  simp only [processUnit, hne, Bool.false_eq_true, if_false]
  cases hd : downloadPaths env paths with
  | error e2 =>
      constructor
      · intro _
        exact (downloadPaths_error_iff env paths).mp ⟨e2, hd⟩
      · intro _
        exact ⟨e2, rfl⟩
  | ok ds =>
      constructor
      · intro ⟨e, he⟩
        exact Except.noConfusion he
      · intro hex
        rcases (downloadPaths_error_iff env paths).mpr hex with ⟨e, he⟩
        rw [hd] at he
        exact Except.noConfusion he

/-- C5 witness: a single path under root `/data` with a plain-directory remote
root, so the remote counterpart `/mnt/remote/a.txt` has scheme `""`, not `s3`. -/
theorem C5_non_s3_scheme_fatal_witness :
    (∃ e, processUnit ⟨"/data", "/mnt/remote", "/cachedir"⟩ (fun _ => false) 4
        ["/data/a.txt"] = Except.error e)
      ↔ ∃ p ∈ ["/data/a.txt"],
          urlScheme (remotePath ⟨"/data", "/mnt/remote", "/cachedir"⟩ p) ≠ "s3" :=
  C5_non_s3_scheme_fatal ⟨"/data", "/mnt/remote", "/cachedir"⟩ (fun _ => false) 4
    ["/data/a.txt"] (by decide)

/-- C7: when every path of a work unit already exists at its cache location,
`_download_data_target` puts the index on the ready queue immediately and
issues no download. -/
theorem C7_cached_unit_skips_download (env : DlEnv) (ex : String → Bool) (i : Nat)
    (paths : List String)
    (hall : (paths.all fun p => ex (localPath env p)) = true) :
    processUnit env ex i paths = Except.ok ([], [i]) := by
  simp [processUnit, hall]

/-- C7 witness: with `os.path.exists` returning `True` everywhere, the unit is
reported ready with an empty download list. -/
theorem C7_cached_unit_skips_download_witness :
    processUnit ⟨"/data", "s3://bk", "/cachedir"⟩ (fun _ => true) 9 ["/data/a.txt"]
      = Except.ok ([], [9]) :=
  C7_cached_unit_skips_download ⟨"/data", "s3://bk", "/cachedir"⟩ (fun _ => true) 9
    ["/data/a.txt"] (by decide)

namespace Processor

theorem pathOf_eq_none_iff (root : String) (l : Leaf) :
    pathOf root l = none ↔ isPathElem root l = false := by
  cases l with
  | str s =>
      simp only [pathOf, isPathElem]
      by_cases h : pyStartsWith s root <;> simp [h]
  | other t => simp [pathOf, isPathElem]

/-- `_collect_paths` raises for an item exactly when no element of its
flattened structure is a string starting with the root. -/
theorem collectItem_error_iff (root cacheDir : String) (item : List Leaf) :
    (∃ e, collectItem root cacheDir item = Except.error e)
      ↔ ∀ l ∈ item, isPathElem root l = false := by
  have hnil : item.filterMap (pathOf root) = [] ↔ ∀ l ∈ item, isPathElem root l = false := by
    rw [List.filterMap_eq_nil_iff]
    constructor
    · intro h l hl
      exact (pathOf_eq_none_iff root l).mp (h l hl)
    · intro h l hl
      exact (pathOf_eq_none_iff root l).mpr (h l hl)
  rw [← hnil]
  unfold collectItem
  by_cases h : item.filterMap (pathOf root) = [] <;> simp [h]

theorem collectPaths_error_iff (root cacheDir : String) (items : List (List Leaf)) :
    (∃ e, collectPaths root cacheDir items = Except.error e)
      ↔ ∃ item ∈ items, ∀ l ∈ item, isPathElem root l = false := by
  induction items with
  | nil => simp [collectPaths]
  | cons item rest ih =>
      simp only [collectPaths, List.mem_cons]
      cases hi : collectItem root cacheDir item with
      | error e =>
          constructor
          · intro _
            exact ⟨item, Or.inl rfl, (collectItem_error_iff root cacheDir item).mp ⟨e, hi⟩⟩
          · intro _
            exact ⟨e, rfl⟩
      | ok itPs =>
          cases hr : collectPaths root cacheDir rest with
          | error e2 =>
              constructor
              · intro _
                rcases ih.mp ⟨e2, hr⟩ with ⟨it, hmem, hall⟩
                exact ⟨it, Or.inr hmem, hall⟩
              · intro _
                exact ⟨e2, rfl⟩
          | ok r2 =>
              constructor
              · intro ⟨e, he⟩
                exact Except.noConfusion he
              · intro ⟨it, hmem, hall⟩
                rcases hmem with rfl | hmem
                · rcases (collectItem_error_iff root cacheDir it).mpr hall with ⟨e, he⟩
                  rw [hi] at he
                  exact Except.noConfusion he
                · rcases ih.mpr ⟨it, hmem, hall⟩ with ⟨e, he⟩
                  rw [hr] at he
                  exact Except.noConfusion he

end Processor

/-- C4: `BaseWorker.run` raises `ValueError` — aborting before any cache write —
exactly when some item's flattened structure contains no string element
starting with the worker's root; items with at least one such path never make
path collection raise. -/
theorem C4_item_without_paths_raises (root cacheDir : String)
    (items : List (List Leaf)) (wi si : Nat) (p : Option (List Leaf → List Leaf))
    (hwq rm : Bool) (N : Nat) (msgs : List (Option Nat)) :
    (∃ e, workerRun root cacheDir items wi si p hwq rm N msgs = Except.error e)
      ↔ ∃ item ∈ items, ∀ l ∈ item, isPathElem root l = false := by
  unfold workerRun
  cases hc : collectPaths root cacheDir items with
  | error e =>
      constructor
      · intro _
        exact (collectPaths_error_iff root cacheDir items).mp ⟨e, hc⟩
      · intro _
        exact ⟨e, rfl⟩
  | ok r =>
      constructor
      · intro ⟨e, he⟩
        exact Except.noConfusion he
      · intro hex
        rcases (collectPaths_error_iff root cacheDir items).mpr hex with ⟨e, he⟩
        rw [hc] at he
        exact Except.noConfusion he

namespace Processor

/-- When every remote counterpart has the `s3` scheme, the download loop
succeeds and downloads each path once, in order. -/
theorem downloadPaths_all_s3 (env : DlEnv) :
    ∀ paths : List String,
    (∀ q ∈ paths, urlScheme (remotePath env q) = "s3") →
    downloadPaths env paths = Except.ok (paths.map (remotePath env)) := by
  intro paths
  induction paths with
  | nil => intro _; rfl
  | cons q rest ih =>
      intro h
      simp only [downloadPaths, List.map_cons]
      rw [if_neg (not_not_intro (h q (List.mem_cons_self q rest))),
        ih (fun q2 hq2 => h q2 (List.mem_cons_of_mem q hq2))]

/-- When every path of a batch has a distinct existing cached counterpart, the
remover deletes exactly those counterparts, each once, in batch order. -/
theorem removeBatch_deletes_each_once (root cacheDir : String) :
    ∀ (paths fs : List String),
    (∀ q ∈ paths, pyReplace q root cacheDir ∈ fs) →
    (paths.map (fun q => pyReplace q root cacheDir)).Nodup →
    (removeBatch root cacheDir fs paths).2
      = paths.map (fun q => pyReplace q root cacheDir) := by
  intro paths
  induction paths with
  | nil => intro fs _ _; rfl
  | cons q rest ih =>
      intro fs hex hnodup
      rw [List.map_cons] at hnodup
      rcases List.nodup_cons.mp hnodup with ⟨hq, hrest⟩
      simp only [removeBatch, List.map_cons]
      rw [if_pos (hex q (List.mem_cons_self q rest))]
      simp only []
      congr 1
      apply ih
      · intro q2 hq2
        have hne : pyReplace q2 root cacheDir ≠ pyReplace q root cacheDir := by
          intro heq
          exact hq (heq ▸ List.mem_map_of_mem (fun q3 => pyReplace q3 root cacheDir) hq2)
        exact (List.mem_erase_of_ne hne).mpr (hex q2 (List.mem_cons_of_mem q hq2))
      · exact hrest

end Processor

/-- C6: an item with `N` distinct root-relative file paths, none already
cached, causes exactly `N` downloads (one per path) in `_download_data_target`;
with `remove=True` the worker's loop enqueues exactly those source paths for
deletion once per processed item, in the same iteration as (after) the item's
cache-slot write, and the remover deletes each cached counterpart exactly
once. -/
theorem C6_n_downloads_n_deletions {α : Type} (env : DlEnv) (ex : String → Bool)
    (i : Nat) (paths : List String) (wi si : Nat) (p : Option (α → α))
    (itemAt : Nat → α) (pathsAt : Nat → List String) (hwq : Bool) (N : Nat)
    (order : List Nat) (root cacheDir : String) (fs : List String)
    (hnex : ∀ q ∈ paths, ex (localPath env q) = false)
    (hne : paths ≠ [])
    (hs3 : ∀ q ∈ paths, urlScheme (remotePath env q) = "s3")
    (hN : 1 ≤ N)
    (hfs : ∀ q ∈ paths, pyReplace q root cacheDir ∈ fs)
    (hnodup : (paths.map (fun q => pyReplace q root cacheDir)).Nodup) :
    processUnit env ex i paths = Except.ok (paths.map (remotePath env), [i])
    ∧ (∃ s : LoopState α,
        runLoop wi si p itemAt pathsAt hwq true N
            (order.map some ++ List.replicate N none) 0 (initState α)
          = LoopResult.returned s
        ∧ s.removeMsgs = order.map (fun r => some (pathsAt r)) ++ [none]
        ∧ s.writes = order.map (fun r => (r + si, itemValue p (itemAt r))))
    ∧ removerRun root cacheDir fs [some paths, none]
        = some ((removeBatch root cacheDir fs paths).1,
                paths.map (fun q => pyReplace q root cacheDir)) := by
  refine ⟨?_, ?_, ?_⟩
  · have hall : (paths.all fun q => ex (localPath env q)) = false := by
      rcases paths with _ | ⟨q, qs⟩
      · exact absurd rfl hne
      · simp [hnex q (List.mem_cons_self q qs)]
    simp only [processUnit, hall, Bool.false_eq_true, if_false,
      downloadPaths_all_s3 env paths hs3]
  · refine ⟨{ order.foldl (stepSome wi si p itemAt pathsAt hwq true) (initState α) with
        removeMsgs := (order.foldl (stepSome wi si p itemAt pathsAt hwq true)
          (initState α)).removeMsgs ++ [none],
        cacheDone := true }, ?_, ?_, ?_⟩
    · rw [runLoop_append_map_some]
      exact runLoop_replicate_none wi si p itemAt pathsAt hwq true N N 0
        (order.foldl (stepSome wi si p itemAt pathsAt hwq true) (initState α))
        (by omega) (by omega)
    · simp [foldl_stepSome_removeMsgs, initState]
    · simp [foldl_stepSome_writes, initState]
  · have hb := removeBatch_deletes_each_once root cacheDir paths fs hfs hnodup
    simp only [removerRun, hb]
    simp

/-- C6 witness: two paths under `/data`, an `s3://` remote root, an empty cache
and a remover filesystem holding the two cached counterparts. -/
theorem C6_n_downloads_n_deletions_witness :
    processUnit ⟨"/data", "s3://bk", "/cache/h/data"⟩ (fun _ => false) 0
        ["/data/a.txt", "/data/b.txt"]
      = Except.ok (["/data/a.txt", "/data/b.txt"].map
          (remotePath ⟨"/data", "s3://bk", "/cache/h/data"⟩), [0])
    ∧ (∃ s : LoopState Nat,
        runLoop 0 0 none (fun _ => 5) (fun _ => ["/data/a.txt", "/data/b.txt"])
            false true 1 ([0].map some ++ List.replicate 1 none) 0 (initState Nat)
          = LoopResult.returned s
        ∧ s.removeMsgs
            = [0].map (fun r => some ((fun _ => ["/data/a.txt", "/data/b.txt"]) r))
              ++ [none]
        ∧ s.writes = [0].map (fun r => (r + 0, itemValue none ((fun _ => (5 : Nat)) r))))
    ∧ removerRun "/data" "/cache/h/data"
          ["/cache/h/data/a.txt", "/cache/h/data/b.txt"]
          [some ["/data/a.txt", "/data/b.txt"], none]
        = some ((removeBatch "/data" "/cache/h/data"
                  ["/cache/h/data/a.txt", "/cache/h/data/b.txt"]
                  ["/data/a.txt", "/data/b.txt"]).1,
                ["/data/a.txt", "/data/b.txt"].map
                  (fun q => pyReplace q "/data" "/cache/h/data")) :=
  C6_n_downloads_n_deletions ⟨"/data", "s3://bk", "/cache/h/data"⟩ (fun _ => false) 0
    ["/data/a.txt", "/data/b.txt"] 0 0 none (fun _ => 5)
    (fun _ => ["/data/a.txt", "/data/b.txt"]) false 1 [0] "/data" "/cache/h/data"
    ["/cache/h/data/a.txt", "/cache/h/data/b.txt"]
    (by decide) (by decide) (by decide) (by decide) (by decide) (by decide)

namespace Processor

theorem countNone_append (l1 l2 : List (Option β)) :
    countNone (l1 ++ l2) = countNone l1 + countNone l2 := by
  induction l1 with
  | nil => simp [countNone]
  | cons m rest ih =>
      cases m with
      | none =>
          simp only [List.cons_append, countNone, List.append_eq, ih]
          omega
      | some b => simp only [List.cons_append, countNone, List.append_eq, ih]

theorem countNone_map_some (l : List β) : countNone (l.map some) = 0 := by
  induction l with
  | nil => rfl
  | cons x xs ih => simpa [countNone] using ih

/-- A downloader whose input queue holds work units followed by one `None`
sentinel forwards exactly one `None` to the ready queue, as its final output,
whenever it finishes. -/
theorem downloaderRun_one_sentinel (env : DlEnv) (ex : String → Bool) :
    ∀ (units : List (Nat × List String)) (ds : List String)
      (outs : List (Option Nat)),
    downloaderRun env ex (units.map some ++ [none]) = DlResult.finished ds outs →
    countNone outs = 1 ∧ outs.getLast? = some none := by
  intro units
  induction units with
  | nil =>
      intro ds outs h
      simp only [List.map_nil, List.nil_append, downloaderRun] at h
      cases h
      exact ⟨rfl, rfl⟩
  | cons u rest ih =>
      intro ds outs h
      obtain ⟨i, paths⟩ := u
      simp only [List.map_cons, List.cons_append, List.append_eq, downloaderRun] at h
      cases hp : processUnit env ex i paths with
      | error e =>
          rw [hp] at h
          exact DlResult.noConfusion h
      | ok dsOuts =>
          obtain ⟨ds0, outs0⟩ := dsOuts
          rw [hp] at h
          cases hr : downloaderRun env ex (rest.map some ++ [none]) with
          | blocked =>
              rw [hr] at h
              exact DlResult.noConfusion h
          | failed e =>
              rw [hr] at h
              exact DlResult.noConfusion h
          | finished ds2 outs2 =>
              rw [hr] at h
              have h2 : DlResult.finished (ds0 ++ ds2) (outs0.map some ++ outs2)
                  = DlResult.finished ds outs := h
              cases h2
              obtain ⟨hc, hl⟩ := ih ds2 outs2 hr
              constructor
              · rw [countNone_append, countNone_map_some]
                omega
              · have hne : outs2 ≠ [] := by
                  intro heq
                  rw [heq] at hl
                  exact Option.noConfusion hl
                rw [List.getLast?_append_of_ne_nil _ hne]
                exact hl

/-- When the main loop returns, it consumed at least `numDownloaders` `None`
sentinels, has called `cache.done()`, and its last remove-queue message is the
shutdown sentinel. -/
theorem runLoop_returned_sentinels {α : Type} (wi si : Nat) (p : Option (α → α))
    (itemAt : Nat → α) (pathsAt : Nat → List String) (hwq rm : Bool) (N : Nat) :
    ∀ (msgs : List (Option Nat)) (isNone : Nat) (s s2 : LoopState α),
    runLoop wi si p itemAt pathsAt hwq rm N msgs isNone s = LoopResult.returned s2 →
    N ≤ isNone + countNone msgs
    ∧ s2.cacheDone = true
    ∧ s2.removeMsgs.getLast? = some none := by
  intro msgs
  induction msgs with
  | nil =>
      intro isNone s s2 h
      exact LoopResult.noConfusion h
  | cons m rest ih =>
      intro isNone s s2 h
      cases m with
      | none =>
          simp only [runLoop] at h
          by_cases hn : isNone + 1 = N
          · rw [if_pos hn] at h
            cases h
            refine ⟨by simp [countNone]; omega, rfl, ?_⟩
            show (s.removeMsgs ++ [none]).getLast? = some none
            rw [List.getLast?_append_of_ne_nil _ (by simp)]
            simp
          · rw [if_neg hn] at h
            obtain ⟨h1, h2, h3⟩ := ih (isNone + 1) s s2 h
            refine ⟨?_, h2, h3⟩
            simp only [countNone] at h1 ⊢
            omega
      | some r =>
          simp only [runLoop] at h
          obtain ⟨h1, h2, h3⟩ := ih isNone _ s2 h
          exact ⟨by simpa [countNone] using h1, h2, h3⟩

/-- When the main loop blocks (message list exhausted before the
`numDownloaders`-th sentinel), `cache.done()` has not been called and no
shutdown sentinel has been put on the remove queue. -/
theorem runLoop_blocked_no_shutdown {α : Type} (wi si : Nat) (p : Option (α → α))
    (itemAt : Nat → α) (pathsAt : Nat → List String) (hwq rm : Bool) (N : Nat) :
    ∀ (msgs : List (Option Nat)) (isNone : Nat) (s s2 : LoopState α),
    runLoop wi si p itemAt pathsAt hwq rm N msgs isNone s = LoopResult.blocked s2 →
    s2.cacheDone = s.cacheDone
    ∧ countNone s2.removeMsgs = countNone s.removeMsgs := by
  intro msgs
  induction msgs with
  | nil =>
      intro isNone s s2 h
      simp only [runLoop] at h
      cases h
      exact ⟨rfl, rfl⟩
  | cons m rest ih =>
      intro isNone s s2 h
      cases m with
      | none =>
          simp only [runLoop] at h
          by_cases hn : isNone + 1 = N
          · rw [if_pos hn] at h
            exact LoopResult.noConfusion h
          · rw [if_neg hn] at h
            exact ih (isNone + 1) s s2 h
      | some r =>
          simp only [runLoop] at h
          obtain ⟨h1, h2⟩ := ih isNone _ s2 h
          refine ⟨h1.trans ?_, h2.trans ?_⟩
          · rfl
          · simp only [stepSome, countNone_append]
            cases rm <;> simp [countNone]

end Processor

/-- C9: the shutdown protocol — `_start_downloaders` puts exactly one `None`
sentinel on each downloader input queue, after all that downloader's work
units; a finishing downloader forwards exactly one `None` to the shared ready
queue, as its last output; the worker's main loop never returns before
consuming `num_downloaders` sentinels (so a returned run saw at least `N`
`None`s, and a blocked run has neither called `cache.done()` nor sent the
remove-queue shutdown sentinel); and upon the `N`-th sentinel the loop puts
`None` on the remove queue, calls `cache.done()` and returns. -/
theorem C9_shutdown_sentinel_protocol {α : Type} (wi si : Nat) (p : Option (α → α))
    (itemAt : Nat → α) (pathsAt : Nat → List String) (hwq rm : Bool) (N : Nat)
    (pathsList : List (List String)) (d : Nat) (env : DlEnv) (ex : String → Bool)
    (units : List (Nat × List String)) (ds : List String) (outs : List (Option Nat))
    (msgs msgsB : List (Option Nat)) (init sR sB : LoopState α)
    (hdl : downloaderRun env ex (units.map some ++ [none]) = DlResult.finished ds outs)
    (hret : runLoop wi si p itemAt pathsAt hwq rm N msgs 0 init = LoopResult.returned sR)
    (hblk : runLoop wi si p itemAt pathsAt hwq rm N msgsB 0 init = LoopResult.blocked sB) :
    (countNone (toDownloadQueue N pathsList d) = 1
      ∧ (toDownloadQueue N pathsList d).getLast? = some none)
    ∧ (countNone outs = 1 ∧ outs.getLast? = some none)
    ∧ N ≤ countNone msgs
    ∧ sR.cacheDone = true
    ∧ sR.removeMsgs.getLast? = some none
    ∧ sB.cacheDone = init.cacheDone
    ∧ countNone sB.removeMsgs = countNone init.removeMsgs := by
  obtain ⟨h1, h2, h3⟩ :=
    runLoop_returned_sentinels wi si p itemAt pathsAt hwq rm N msgs 0 init sR hret
  obtain ⟨h4, h5⟩ :=
    runLoop_blocked_no_shutdown wi si p itemAt pathsAt hwq rm N msgsB 0 init sB hblk
  obtain ⟨h6, h7⟩ := downloaderRun_one_sentinel env ex units ds outs hdl
  refine ⟨⟨?_, ?_⟩, ⟨h6, h7⟩, by omega, h2, h3, h4, h5⟩
  · rw [toDownloadQueue, countNone_append, countNone_map_some]
    simp [countNone]
  · rw [toDownloadQueue]
    exact List.getLast?_append_of_ne_nil _ (by simp)

/-- C9 witness: two downloaders (`N = 2`); the returned run consumes one ready
index and both sentinels, the blocked run saw only one sentinel; the finishing
downloader had no work units. -/
theorem C9_shutdown_sentinel_protocol_witness :
    (countNone (toDownloadQueue 2 [["/data/a.txt"]] 0) = 1
      ∧ (toDownloadQueue 2 [["/data/a.txt"]] 0).getLast? = some none)
    ∧ (countNone ([none] : List (Option Nat)) = 1
      ∧ ([none] : List (Option Nat)).getLast? = some none)
    ∧ 2 ≤ countNone [some 0, none, none]
    ∧ (LoopState.mk [(0, 7)] 1 [] [none] true : LoopState Nat).cacheDone = true
    ∧ (LoopState.mk [(0, 7)] 1 [] [none] true : LoopState Nat).removeMsgs.getLast?
        = some none
    ∧ (initState Nat).cacheDone = (initState Nat).cacheDone
    ∧ countNone (initState Nat).removeMsgs = countNone (initState Nat).removeMsgs :=
  C9_shutdown_sentinel_protocol 0 0 none (fun _ => 7) (fun _ => []) false false 2
    [["/data/a.txt"]] 0 ⟨"/data", "s3://bk", "/c"⟩ (fun _ => false) [] [] [none]
    [some 0, none, none] [none] (initState Nat)
    (LoopState.mk [(0, 7)] 1 [] [none] true) (initState Nat)
    (by decide) (by decide) (by decide)

namespace Processor

theorem splitLinesAux_newline (ys : List Char) :
    ∀ (xs acc : List Char), ('\n') ∉ xs →
    splitLinesAux acc (xs ++ '\n' :: ys)
      = (acc.reverse ++ xs) :: splitLinesAux [] ys := by
  intro xs
  induction xs with
  | nil =>
      intro acc _
      simp [splitLinesAux]
  | cons x xs2 ih =>
      intro acc hx
      have hxne : ¬x = '\n' := fun h => hx (h ▸ List.mem_cons_self x xs2)
      simp only [List.cons_append, List.append_eq, splitLinesAux, if_neg hxne]
      rw [ih (x :: acc) (fun h => hx (List.mem_cons_of_mem x h))]
      simp

/-- Reading back the written `filepaths.txt` recovers the filepath list,
provided no filepath contains a newline. -/
theorem readLines_serializeLines :
    ∀ l : List String, (∀ p ∈ l, ('\n') ∉ p.data) →
    readLines (serializeLines l) = l := by
  intro l
  induction l with
  | nil => intro _; rfl
  | cons p rest ih =>
      intro h
      have hdata : (serializeLines (p :: rest)).data
          = p.data ++ '\n' :: (serializeLines rest).data := by
        show (p ++ "\n" ++ serializeLines rest).data = _
        rw [String.data_append, String.data_append, List.append_assoc]
        rfl
      unfold readLines
      rw [hdata, splitLinesAux_newline (serializeLines rest).data p.data []
        (h p (List.mem_cons_self p rest))]
      simp only [List.map_cons, List.reverse_nil, List.nil_append]
      rw [show String.mk p.data = p from rfl]
      exact congrArg (p :: ·) (ih (fun q hq => h q (List.mem_cons_of_mem p hq)))

end Processor

/-- C8: `_cached_list_filepaths` is idempotent per root: the first call (no
cached file) walks the filesystem once, writes `filepaths.txt` and returns the
walked filepaths; every subsequent call reads the cached file back without
walking and — provided no path contains a newline — returns the same list,
leaving the state unchanged. -/
theorem C8_cached_list_filepaths_idempotent (fs0 : ListFS)
    (h0 : fs0.cachedFile = none)
    (hnl : ∀ p ∈ fs0.walkResult, ('\n') ∉ p.data) :
    (cachedListFilepaths fs0).1 = fs0.walkResult
    ∧ ((cachedListFilepaths fs0).2).walkCount = fs0.walkCount + 1
    ∧ cachedListFilepaths ((cachedListFilepaths fs0).2)
        = ((cachedListFilepaths fs0).1, (cachedListFilepaths fs0).2) := by
  refine ⟨by simp [cachedListFilepaths, h0], by simp [cachedListFilepaths, h0], ?_⟩
  simp [cachedListFilepaths, h0, readLines_serializeLines fs0.walkResult hnl]

/-- C8 witness: a walk yielding two newline-free paths. -/
theorem C8_cached_list_filepaths_idempotent_witness :
    (cachedListFilepaths ⟨none, ["/data/a.txt", "/data/b.txt"], 0⟩).1
        = ["/data/a.txt", "/data/b.txt"]
    ∧ ((cachedListFilepaths ⟨none, ["/data/a.txt", "/data/b.txt"], 0⟩).2).walkCount
        = 0 + 1
    ∧ cachedListFilepaths
          ((cachedListFilepaths ⟨none, ["/data/a.txt", "/data/b.txt"], 0⟩).2)
        = ((cachedListFilepaths ⟨none, ["/data/a.txt", "/data/b.txt"], 0⟩).1,
           (cachedListFilepaths ⟨none, ["/data/a.txt", "/data/b.txt"], 0⟩).2) :=
  C8_cached_list_filepaths_idempotent ⟨none, ["/data/a.txt", "/data/b.txt"], 0⟩
    rfl (by decide)
